import Mathlib

/-!
Verification of the sql-compiler token classifier and AST builder.

The development shallowly embeds the two pipelines found in the source:

* the older self-contained pipeline (`lexicalAnalysis` and
  `syntaticAnalysis` with its inner `walk`), and
* the newer select-statement parser (`walkWhereParts`, `processColumn`,
  `splitTokensByConcatOperator`, `getUnionType`, `getIndexNextSelect`,
  `getObjectAlias` and the select entry point).

Strings are embedded as `List Char`; JavaScript string and array helpers
(`indexOf`, `substring`, `slice`, `split`) are embedded with their exact
JS semantics, including the -1 result of a failed `indexOf`.  Objects
whose shape varies at runtime are embedded as inductive types with one
constructor per shape, and property reads that can see `undefined` return
`Option` values or a dedicated `undefined` constructor.  Code that can
throw is embedded in `Except`; recursion that follows the mutable-index
loops of the source is driven by an explicit fuel argument, so every
definition is executable and every concrete run can be checked by `rfl`.
-/

namespace SqlC

/-- Tag strings used by the older pipeline: the token types assigned by
`lexicalAnalysis` together with the node type tags produced by the
syntactic walker.  In the source all of these are plain strings, so equal
strings are represented by a single constructor (for example the token
type string of a function call and the node tag of a parsed function
call coincide). -/
inductive ATag where
  | empty_space
  | select_statement
  | from_statement
  | where_statement
  | order_by_statement
  | limit_statement
  | concat_operator
  | comma_delimiter
  | string_literal
  | function_call
  | unknown
  | asterisk
  | selectNode
  | fromNode
  | from_object
  | object_value
  | alias_value
  | column_alias
  | column
  | concatenation
deriving DecidableEq, Repr

/-- A classified token: `lexicalAnalysis` builds objects with a `type`
and a `value` field. -/
structure Token where
  type : ATag
  value : List Char
deriving DecidableEq, Repr

/-- JS `toUpperCase`, restricted to the ASCII range, which covers every
key of the keyword lookup table. -/
def jsToUpper (s : List Char) : List Char := s.map Char.toUpper

/-- JS `indexOf` for a single character: index of the first occurrence,
`-1` when the character does not occur. -/
def jsIndexOf (cs : List Char) (c : Char) : Int :=
  match cs with
  | [] => -1
  | x :: rest =>
    if x = c then 0
    else
      let r := jsIndexOf rest c
      if r < 0 then -1 else r + 1

/-- Clamping of one `substring` argument: negative values become 0 and
values past the end become the length. -/
def jsClamp (n : Int) (len : Nat) : Nat := (max 0 (min n (len : Int))).toNat

/-- JS `substring`: both arguments are clamped to the string bounds and
swapped when given in descending order. -/
def jsSubstring (cs : List Char) (a b : Int) : List Char :=
  let x := jsClamp a cs.length
  let y := jsClamp b cs.length
  (cs.take (max x y)).drop (min x y)

/-- JS `split` with a single-character separator: splitting the empty
string yields one empty field, and every separator occurrence opens a new
field. -/
def jsSplit (sep : Char) : List Char → List (List Char)
  | [] => [[]]
  | c :: rest =>
    if c = sep then [] :: jsSplit sep rest
    else
      match jsSplit sep rest with
      | g :: gs => (c :: g) :: gs
      | [] => [[c]]

/-- The character class of the regex fragment used by the function-call
pattern: ASCII letters, digits and underscore. -/
def isWordChar (c : Char) : Bool := c.isAlpha || c.isDigit || c = '_'

/-- Line terminators, which the unflagged regex wildcard of the
function-call pattern does not match. -/
def isLineTerminator (c : Char) : Bool :=
  c = '\n' || c = '\r' || c = Char.ofNat 0x2028 || c = Char.ofNat 0x2029

/-- The quoted-literal test of `lexicalAnalysis`: the token starts and
ends with a single-quote character. -/
def isString (cs : List Char) : Bool :=
  cs.head? = some '\'' && cs.getLast? = some '\''

/-- The function-call test of `lexicalAnalysis`: the regex anchored on
both sides that requires one or more word characters, a left parenthesis,
any characters other than line terminators, and a final right
parenthesis.  Because the name part admits only word characters, the left
parenthesis of a match is the first one in the token. -/
def isFunctionCall (cs : List Char) : Bool :=
  let p := jsIndexOf cs '('
  decide (1 ≤ p ∧
    (cs.take p.toNat).all isWordChar = true ∧
    cs.getLast? = some ')' ∧
    p.toNat + 2 ≤ cs.length ∧
    ((cs.drop (p.toNat + 1)).dropLast.all fun c => !(isLineTerminator c)) = true)

/-- The fixed keyword lookup table, keyed by the upper-cased token.  A
missing key yields `none`, which the classifier replaces by `unknown`. -/
def tokenTypes (s : List Char) : Option ATag :=
  if s = [] then some .empty_space
  else if s = [','] then some .comma_delimiter
  else if s = "SELECT".toList then some .select_statement
  else if s = "FROM".toList then some .from_statement
  else if s = "WHERE".toList then some .where_statement
  else if s = "ORDER BY".toList then some .order_by_statement
  else if s = "LIMIT".toList then some .limit_statement
  else if s = "||".toList then some .concat_operator
  else if s = "*".toList then some .asterisk
  else none

/-- Classification of one raw token, exactly as the body of the `map` in
`lexicalAnalysis`: quoted literals first (value with the enclosing quotes
sliced off), then function-call shaped tokens (raw text kept), then the
keyword table on the upper-cased text with `unknown` as default. -/
def classifyToken (token : List Char) : Token :=
  if isString token then
    { type := .string_literal, value := (token.drop 1).dropLast }
  else if isFunctionCall token then
    { type := .function_call, value := token }
  else
    { type := (tokenTypes (jsToUpper token)).getD .unknown, value := token }

/-- `lexicalAnalysis`: one classified token per raw token. -/
def lexicalAnalysis (tokens : List (List Char)) : List Token :=
  tokens.map classifyToken

/-- Claim C7: for every input list of raw token strings the classifier
returns a list of tokens of exactly the same length; no token is split,
merged or dropped at this stage. -/
theorem c7_classifier_length (tokens : List (List Char)) :
    (lexicalAnalysis tokens).length = tokens.length := by
  simp [lexicalAnalysis]

/-- Claim C8: the classifier is total, and any string that is not a
quoted literal, not function-call shaped, and not in the keyword table is
classified as `unknown` with its original text preserved as the value. -/
theorem c8_classifier_unknown (s : List Char)
    (h1 : isString s = false) (h2 : isFunctionCall s = false)
    (h3 : tokenTypes (jsToUpper s) = none) :
    classifyToken s = { type := ATag.unknown, value := s } := by
  simp [classifyToken, h1, h2, h3]

/-- Witness for C8 at the concrete token `foo`. -/
theorem c8_classifier_unknown_witness :
    isString "foo".toList = false ∧ isFunctionCall "foo".toList = false ∧
    tokenTypes (jsToUpper "foo".toList) = none ∧
    classifyToken "foo".toList = { type := ATag.unknown, value := "foo".toList } :=
  ⟨by decide, by decide, by decide,
    c8_classifier_unknown _ (by decide) (by decide) (by decide)⟩

/-- Runtime error kinds of the older pipeline: the TypeError raised by a
property read on `undefined`, and exhaustion of the explicit fuel that
drives the embedded recursion. -/
inductive AErr where
  | typeError
  | fuelOut
deriving DecidableEq, Repr

/-- The JS values produced and consumed by the older walker.  Every
object shape that `walk`, `processColumnValueFromParts` and the column
loop build gets one constructor; `jsUndefined` is the JS `undefined` value
and `jsStr` a bare string, so that property reads can be modelled as
total functions into this one type. -/
inductive ANode where
  | jsUndefined
  | jsNull
  | jsStr (s : List Char)
  | fc (name : List Char) (arguments : List (List Char))
  | tv (type : ATag) (value : List Char)
  | colAlias (value : ANode)
  | fromN (object : ANode)
  | concatCV (elements : List ANode)
  | tvCV (type : Option ATag) (value : ANode)
  | column (columnValue : ANode) (aliasV : ANode)
  | select (columns : List ANode) (fromVal : ANode)
deriving Repr

/-- The `type` property of a walker value; `none` when the value has no
such property (`undefined` itself, bare strings, and shapes built
without one). -/
def ANode.tag : ANode → Option ATag
  | .jsUndefined => none
  | .jsNull => none
  | .jsStr _ => none
  | .fc _ _ => some .function_call
  | .tv t _ => some t
  | .colAlias _ => some .column_alias
  | .fromN _ => some .fromNode
  | .concatCV _ => some .concatenation
  | .tvCV t _ => t
  | .column _ _ => some .column
  | .select _ _ => some .selectNode

/-- The `value` property of a walker value; `jsUndefined` for the shapes
that do not carry one. -/
def ANode.valueProp : ANode → ANode
  | .jsUndefined => .jsUndefined
  | .jsNull => .jsUndefined
  | .jsStr _ => .jsUndefined
  | .fc _ _ => .jsUndefined
  | .tv _ v => .jsStr v
  | .colAlias v => v
  | .fromN _ => .jsUndefined
  | .concatCV _ => .jsUndefined
  | .tvCV _ v => v
  | .column _ _ => .jsUndefined
  | .select _ _ => .jsUndefined

/-- The function-call branch of the older `walk`: the name is the
substring before the first left parenthesis, and the arguments are the
comma-split substring between the first left parenthesis and the first
right parenthesis. -/
def walkFunctionCall (value : List Char) : ANode :=
  .fc (jsSubstring value 0 (jsIndexOf value '('))
    (jsSplit ',' (jsSubstring value (jsIndexOf value '(' + 1) (jsIndexOf value ')')))

/-- The raw text of a function-call token assembled from a name part and
the text between the parentheses. -/
def fcToken (name args : List Char) : List Char :=
  name ++ '(' :: (args ++ [')'])

theorem jsIndexOf_append (l₁ l₂ : List Char) (c : Char) (h : ∀ x ∈ l₁, x ≠ c) :
    jsIndexOf (l₁ ++ c :: l₂) c = l₁.length := by
  induction l₁ with
  | nil => simp [jsIndexOf]
  | cons x l ih =>
    have hx : x ≠ c := h x (by simp)
    have ih' := ih fun y hy => h y (by simp [hy])
    show (if x = c then (0 : Int) else
      let r := jsIndexOf (l ++ c :: l₂) c
      if r < 0 then -1 else r + 1) = ((x :: l).length : Int)
    rw [if_neg hx]
    simp only [ih']
    have h2 : ¬ ((l.length : Int) < 0) := by omega
    rw [if_neg h2]
    simp

theorem jsSubstring_natCast (cs : List Char) (a b : Nat) (hab : a ≤ b)
    (hb : b ≤ cs.length) :
    jsSubstring cs (a : Int) (b : Int) = (cs.take b).drop a := by
  have ha' : jsClamp (a : Int) cs.length = a := by
    simp only [jsClamp]
    omega
  have hb' : jsClamp (b : Int) cs.length = b := by
    simp only [jsClamp]
    omega
  simp only [jsSubstring, ha', hb']
  rw [Nat.max_eq_right hab, Nat.min_eq_left hab]

/-- Helper: a word character differs from any fixed non-word character. -/
theorem word_ne (c x : Char) (hx : isWordChar x = true)
    (hc : isWordChar c = false) : x ≠ c := by
  intro h
  rw [h, hc] at hx
  exact Bool.noConfusion hx

theorem fcToken_take (name args : List Char) :
    (fcToken name args).take name.length = name := by
  simp [fcToken]

theorem getLast?_append_single (l : List Char) (a : Char) :
    (l ++ [a]).getLast? = some a := by
  simp

theorem fcToken_getLast (name args : List Char) :
    (fcToken name args).getLast? = some ')' := by
  rw [show fcToken name args = (name ++ '(' :: args) ++ [')'] by simp [fcToken]]
  exact getLast?_append_single _ _

theorem fcToken_length (name args : List Char) :
    (fcToken name args).length = name.length + args.length + 2 := by
  simp [fcToken]
  omega

theorem fcToken_mid (name args : List Char) :
    ((fcToken name args).drop (name.length + 1)).dropLast = args := by
  rw [show fcToken name args = (name ++ ['(']) ++ (args ++ [')']) by simp [fcToken]]
  rw [show name.length + 1 = (name ++ ['(']).length by simp]
  rw [List.drop_left]
  simp

theorem fcShape_isFunctionCall (name args : List Char) (h1 : name ≠ [])
    (h2 : name.all isWordChar = true)
    (h3 : ∀ c ∈ args, c ≠ ')' ∧ isLineTerminator c = false) :
    isFunctionCall (fcToken name args) = true := by
  have hnp : ∀ x ∈ name, x ≠ '(' := by
    intro x hx
    exact word_ne _ _ (by rw [List.all_eq_true] at h2; exact h2 x hx) (by decide)
  have hidx : jsIndexOf (fcToken name args) '(' = name.length :=
    jsIndexOf_append name (args ++ [')']) '(' hnp
  have hpos : 0 < name.length := List.length_pos.mpr h1
  have htn : ((name.length : Int)).toNat = name.length := by omega
  simp only [isFunctionCall, hidx, htn, decide_eq_true_eq]
  refine ⟨by omega, ?_, ?_, ?_, ?_⟩
  · rw [fcToken_take]
    exact h2
  · exact fcToken_getLast name args
  · rw [fcToken_length]
    omega
  · rw [fcToken_mid, List.all_eq_true]
    intro c hc
    simp [(h3 c hc).2]

theorem fcShape_walkFunctionCall (name args : List Char)
    (hn : ∀ x ∈ name, x ≠ '(') (hn2 : ∀ x ∈ name, x ≠ ')')
    (ha : ∀ x ∈ args, x ≠ ')') :
    walkFunctionCall (fcToken name args) = .fc name (jsSplit ',' args) := by
  have hidxL : jsIndexOf (fcToken name args) '(' = name.length :=
    jsIndexOf_append name (args ++ [')']) '(' hn
  have hidxR : jsIndexOf (fcToken name args) ')'
      = ((name.length + 1 + args.length : Nat) : Int) := by
    have hall : ∀ x ∈ name ++ '(' :: args, x ≠ ')' := by
      intro x hx
      rcases List.mem_append.mp hx with h | h
      · exact hn2 x h
      · rcases List.mem_cons.mp h with h' | h'
        · rw [h']
          decide
        · exact ha x h'
    rw [show fcToken name args = (name ++ '(' :: args) ++ ')' :: [] by simp [fcToken]]
    rw [jsIndexOf_append (name ++ '(' :: args) [] ')' hall]
    simp
    ring
  simp only [walkFunctionCall, hidxL, hidxR]
  have hname : jsSubstring (fcToken name args) ((0 : Nat) : Int)
      ((name.length : Nat) : Int) = name := by
    rw [jsSubstring_natCast _ 0 name.length (by omega)
      (by rw [fcToken_length]; omega)]
    rw [fcToken_take]
    simp
  have hargs : jsSubstring (fcToken name args)
      ((name.length + 1 : Nat) : Int) ((name.length + 1 + args.length : Nat) : Int)
      = args := by
    rw [jsSubstring_natCast _ _ _ (by omega) (by rw [fcToken_length]; omega)]
    have htake : (fcToken name args).take (name.length + 1 + args.length)
        = name ++ '(' :: args := by
      rw [show fcToken name args = (name ++ '(' :: args) ++ [')'] by simp [fcToken]]
      rw [show name.length + 1 + args.length = (name ++ '(' :: args).length by
        simp; omega]
      exact List.take_left _ _
    rw [htake]
    rw [show name ++ '(' :: args = (name ++ ['(']) ++ args by simp]
    rw [show name.length + 1 = (name ++ ['(']).length by simp]
    exact List.drop_left _ _
  rw [show ((0 : Int)) = ((0 : Nat) : Int) by rfl] at *
  rw [hname]
  rw [show ((name.length : Nat) : Int) + 1 = ((name.length + 1 : Nat) : Int) by
    push_cast; ring]
  rw [hargs]

/-- Claim C2 counterexample: for the function-call token whose argument
itself contains parentheses, the builder truncates at the first right
parenthesis, so the produced argument list differs from the comma-split
contents delimited by the matching right parenthesis (which would be the
single argument text including its inner closing parenthesis). -/
theorem c2_counterexample :
    classifyToken "f(g(x))".toList
      = { type := ATag.function_call, value := "f(g(x))".toList } ∧
    walkFunctionCall "f(g(x))".toList = ANode.fc "f".toList ["g(x".toList] ∧
    ["g(x".toList] ≠ ["g(x)".toList] :=
  ⟨by decide, rfl, by decide⟩

/-- Claim C2 (amended): for every classified token of function-call
shape, the builder produces a function-call node whose name is the
substring before the first left parenthesis and whose arguments are the
comma-split contents between the first left parenthesis and the first
(not the matching) right parenthesis, each argument kept as a raw string
and not recursively parsed.  When no argument text contains a right
parenthesis — the hypothesis below — the first and the matching right
parenthesis coincide; otherwise the argument list is truncated at the
first right parenthesis, as the counterexample shows. -/
theorem c2_amended_thm (name args : List Char) (h1 : name ≠ [])
    (h2 : name.all isWordChar = true)
    (h3 : ∀ c ∈ args, c ≠ ')' ∧ isLineTerminator c = false) :
    classifyToken (fcToken name args)
      = { type := ATag.function_call, value := fcToken name args } ∧
    walkFunctionCall (fcToken name args) = ANode.fc name (jsSplit ',' args) := by
  have hword : ∀ x ∈ name, isWordChar x = true := by
    rw [List.all_eq_true] at h2
    exact h2
  constructor
  · have hstr : isString (fcToken name args) = false := by
      cases name with
      | nil => exact absurd rfl h1
      | cons n0 nr =>
        have : n0 ≠ '\'' := word_ne _ _ (hword n0 (by simp)) (by decide)
        simp [isString, fcToken, this]
    have hfc := fcShape_isFunctionCall name args h1 h2 h3
    rw [classifyToken, hstr, hfc]
    simp
  · exact fcShape_walkFunctionCall name args
      (fun x hx => word_ne _ _ (hword x hx) (by decide))
      (fun x hx => word_ne _ _ (hword x hx) (by decide))
      (fun x hx => (h3 x hx).1)

/-- Witness for the amended C2 at the token built from name `f` and
argument text `x,y`. -/
theorem c2_amended_witness :
    ("f".toList ≠ [] ∧ "f".toList.all isWordChar = true ∧
      (∀ c ∈ "x,y".toList, c ≠ ')' ∧ isLineTerminator c = false)) ∧
    (classifyToken (fcToken "f".toList "x,y".toList)
      = { type := ATag.function_call, value := fcToken "f".toList "x,y".toList } ∧
     walkFunctionCall (fcToken "f".toList "x,y".toList)
      = ANode.fc "f".toList (jsSplit ',' "x,y".toList)) :=
  ⟨⟨by decide, by decide, by decide⟩,
    c2_amended_thm "f".toList "x,y".toList (by decide) (by decide) (by decide)⟩

/-- Claim C10: a function-call token with empty parentheses decomposes
into a function-call node whose arguments list is exactly one element,
the empty string — never the empty list — because the empty contents
between the parentheses comma-split into one empty field. -/
theorem c10_empty_parens (name : List Char) (h1 : name ≠ [])
    (h2 : name.all isWordChar = true) :
    isFunctionCall (name ++ ['(', ')']) = true ∧
    walkFunctionCall (name ++ ['(', ')']) = ANode.fc name [[]] := by
  have hword : ∀ x ∈ name, isWordChar x = true := by
    rw [List.all_eq_true] at h2
    exact h2
  have hsh : name ++ ['(', ')'] = fcToken name [] := rfl
  rw [hsh]
  refine ⟨fcShape_isFunctionCall name [] h1 h2 (by intro c hc; cases hc), ?_⟩
  have := fcShape_walkFunctionCall name []
    (fun x hx => word_ne _ _ (hword x hx) (by decide))
    (fun x hx => word_ne _ _ (hword x hx) (by decide))
    (by intro x hx; cases hx)
  simpa [jsSplit] using this

/-- Witness for C10 at the token with name `f`. -/
theorem c10_empty_parens_witness :
    ("f".toList ≠ [] ∧ "f".toList.all isWordChar = true) ∧
    (isFunctionCall ("f".toList ++ ['(', ')']) = true ∧
     walkFunctionCall ("f".toList ++ ['(', ')']) = ANode.fc "f".toList [[]]) :=
  ⟨⟨by decide, by decide⟩, c10_empty_parens "f".toList (by decide) (by decide)⟩

/-- Claim C9: the one-character token consisting of a single quote both
starts and ends with a quote, so it is classified as a string literal
whose value (the text with first and last characters sliced away) is the
empty string. -/
theorem c9_single_quote_literal :
    classifyToken ['\''] = { type := ATag.string_literal, value := [] } := by
  decide


/-- `processColumnValueFromParts`: a parts list containing a concat
operator becomes a concatenation object whose elements are the parts
with the operator tokens filtered out; a single remaining part becomes
an object copying its type and value; any other shape yields the JS
`undefined` (the function falls through without a return). -/
def processColumnValueFromParts (columnParts : List ANode) : ANode :=
  if columnParts.any (fun part => decide (part.tag = some ATag.concat_operator)) then
    .concatCV (columnParts.filter fun part =>
      decide (¬ (part.tag = some ATag.concat_operator)))
  else
    match columnParts with
    | [p] => .tvCV p.tag p.valueProp
    | _ => .jsUndefined

mutual

/-- The recursive walker inside `syntaticAnalysis`.  Reading the current
token out of range raises the TypeError of `token.type` on `undefined`.
The select branch delegates to `walkSelectColumns`, which embeds the
column-scanning while loop together with the code that follows it (the
final column push and the walk of the position after `FROM`).  The
trailing case returns the next position's walk when one exists and
`undefined` otherwise. -/
def walk (fuel : Nat) (tokens : List Token) (index : Nat) :
    Except AErr ANode :=
  match fuel with
  | 0 => throw .fuelOut
  | fuel + 1 =>
    match tokens[index]? with
    | none => throw .typeError
    | some token =>
      let lastToken := if index = 0 then none else tokens[index - 1]?
      if token.type = .function_call then
        pure (walkFunctionCall token.value)
      else if token.type = .concat_operator then
        pure (.tv token.type token.value)
      else if token.type = .string_literal then
        pure (.tv .string_literal token.value)
      else if token.type = .asterisk then
        pure (.tv .asterisk token.value)
      else if token.type = .from_statement then do
        let o ← walk fuel tokens (index + 1)
        pure (.fromN o)
      else if token.type = .unknown then
        match lastToken with
        | none => throw .typeError
        | some lt =>
          if lt.type = .unknown ∧ jsToUpper lt.value = "AS".toList then
            pure (.tv .alias_value token.value)
          else if jsToUpper token.value = "AS".toList then do
            let v ← walk fuel tokens (index + 1)
            pure (.colAlias v)
          else if lt.type = .from_statement then
            pure (.tv .from_object token.value)
          else
            pure (.tv .object_value token.value)
      else if token.type = .select_statement then
        walkSelectColumns fuel tokens (index + 1) [] [] .jsNull
      else
        if index < tokens.length - 1 then walk fuel tokens (index + 1)
        else pure .jsUndefined

/-- The while loop of the select branch: scan forward until a `FROM`
token, closing a column at each comma, recording an alias at an `AS`
keyword, and otherwise pushing the walked element unless it is an alias
value.  Looking past the end of the token list raises the TypeError of
the loop condition reading `type` of `undefined`.  On `FROM`, a
non-empty parts buffer is pushed as a last column and the walker is
called on the position after `FROM` for the from object. -/
def walkSelectColumns (fuel : Nat) (tokens : List Token) (i : Nat)
    (columns columnParts : List ANode) (aliasV : ANode) :
    Except AErr ANode :=
  match fuel with
  | 0 => throw .fuelOut
  | fuel + 1 =>
    match tokens[i]? with
    | none => throw .typeError
    | some t =>
      if t.type = .from_statement then do
        let columns := if columnParts.length > 0 then
            columns ++ [.column (processColumnValueFromParts columnParts) aliasV]
          else columns
        let fromV ← walk fuel tokens (i + 1)
        pure (.select columns fromV)
      else if t.type = .comma_delimiter then
        walkSelectColumns fuel tokens (i + 1)
          (columns ++ [.column (processColumnValueFromParts columnParts) aliasV])
          [] .jsNull
      else if t.type = .unknown ∧ jsToUpper t.value = "AS".toList then do
        let a ← walk fuel tokens i
        walkSelectColumns fuel tokens (i + 1) columns columnParts a
      else do
        let element ← walk fuel tokens i
        match element with
        | .jsUndefined => throw .typeError
        | e =>
          if e.tag ≠ some ATag.alias_value then
            walkSelectColumns fuel tokens (i + 1) columns (columnParts ++ [e]) aliasV
          else
            walkSelectColumns fuel tokens (i + 1) columns columnParts aliasV

end

/-- `syntaticAnalysis`: drop the empty-space tokens and walk from
position 0. -/
def syntaticAnalysis (fuel : Nat) (tokens : List Token) : Except AErr ANode :=
  walk fuel (tokens.filter fun t => decide (¬ (t.type = ATag.empty_space))) 0

/-- The default export of the parser module: syntactic analysis of the
lexical analysis of the raw tokens. -/
def parse (fuel : Nat) (tokens : List (List Char)) : Except AErr ANode :=
  syntaticAnalysis fuel (lexicalAnalysis tokens)

/-- Claim C3: on a SELECT with no subsequent FROM the exported parser
does not surface a typed missing-clause error; the column loop walks
past the end of the token list and fails with the untyped TypeError of
an out-of-bounds member access, exactly the failure mode the claim
excludes. -/
theorem c3_select_without_from :
    parse 100 ["SELECT".toList, "a".toList] = .error .typeError := rfl

/-- Claim C6: the smoke test.  Parsing SELECT * FROM t yields the select
node with exactly one column whose expression is the asterisk object and
whose alias is the initial null, and a from object for `t`; the node
carries no where property (it is `undefined`). -/
theorem c6_smoke_parse :
    parse 100 ["SELECT".toList, "*".toList, "FROM".toList, "t".toList]
      = .ok (.select
          [.column (.tvCV (some ATag.asterisk) (.jsStr "*".toList)) .jsNull]
          (.tv ATag.from_object "t".toList)) := rfl

/-- Claim C4 counterexample: the exported parser turns a column whose
parts are one identifier followed by a trailing concat operator into a
concatenation node with exactly one element, because it only filters the
operator tokens out instead of splitting into operand groups; this
refutes the invariant that every concatenation produced by parse has at
least two parts. -/
theorem c4_counterexample :
    parse 100 ["SELECT".toList, "a".toList, "||".toList, "FROM".toList,
        "t".toList]
      = .ok (.select
          [.column (.concatCV [.tv ATag.object_value "a".toList]) .jsNull]
          (.tv ATag.from_object "t".toList)) ∧
    [ANode.tv ATag.object_value "a".toList].length < 2 :=
  ⟨rfl, by decide⟩

/-! ## The newer select-statement parser

The second source document is the select parser of the newer pipeline.
Its imports — the constants modules, the dispatching `walk` of the newer
parser module and `isQuote` — are not among the sources, so those
leaf definitions are modelled from the spec; everything below that is
embedded from the source text itself. -/

/-- Token types of the newer pipeline.  Modelled from the spec: the
closed TokenType set of the data model, extended with the reserved-word
types the source compares against (UNION, ALL, AS, QUOTE) and the node
tag constants the source constructs (UNION_ALL, CONCATENATION,
FUNCTION_CALL, PARENTHESIS, AS_ALIAS, SHORT_ALIAS).  All are distinct
strings in the source, hence distinct constructors. -/
inductive NType where
  | select
  | fromKw
  | whereKw
  | orderBy
  | limit
  | union
  | all
  | asKw
  | quote
  | identifier
  | asterisk
  | stringLit
  | comma
  | leftParen
  | rightParen
  | concat
  | equal
  | less
  | greater
  | andL
  | orL
  | unknown
  | unionAll
  | concatenation
  | functionCall
  | parenthesis
  | asAlias
  | shortAlias
deriving DecidableEq, Repr

/-- A classified token of the newer pipeline. -/
structure NToken where
  type : NType
  value : List Char
deriving DecidableEq, Repr

/-- The JS values flowing through the newer parser: `undefined` is the JS
`undefined`, `str` a bare string, `arr` an array, `tagged` an object
with type and value, `tva` an object with type, value and alias,
`triple` an object with type, left and right (comparisons and logical
nodes), `pair` an object with only left and right, `selVal` the inner
object of a select node (columns, from, where) and `nameArgs` the inner
object of a function-call column (name, arguments). -/
inductive B where
  | undefined
  | str (s : List Char)
  | arr (xs : List B)
  | tagged (type : NType) (value : B)
  | tva (type : Option NType) (value : B) (aliasV : B)
  | triple (type : NType) (left : B) (right : B)
  | pair (left : B) (right : B)
  | selVal (columns : B) (fromV : B) (whereV : B)
  | nameArgs (name : B) (arguments : B)
deriving Repr

/-- The `type` property of a value; `none` for shapes without one. -/
def B.typeProp : B → Option NType
  | .tagged t _ => some t
  | .tva t _ _ => t
  | .triple t _ _ => some t
  | _ => none

/-- The `value` property of a value; `undefined` for shapes without one. -/
def B.valueProp : B → B
  | .tagged _ v => v
  | .tva _ v _ => v
  | _ => .undefined

/-- A raw token seen as a JS object with type and value. -/
def tokenB (t : NToken) : B := .tagged t.type (.str t.value)

/-- Runtime error kinds of the newer parser: the TypeError of a property
read on `undefined`, the two thrown errors of the source (unsupported
column shape, union keyword not found) and fuel exhaustion of the
embedding. -/
inductive BErr where
  | typeError
  | unsupportedColumn
  | unionNotFound
  | fuelOut
deriving DecidableEq, Repr

/-- The result of a parsing function of the newer pipeline.  The normal
return shape is the value/index pair `vi` (an undefined index is
`none`); `obj` records that a differently shaped object was returned
where a caller may destructure `value`/`index` fields. -/
inductive Res where
  | vi (value : B) (index : Option Nat)
  | obj (b : B)
deriving Repr

/-- Reading the `value` field of a result: present on the pair shape,
and otherwise whatever `value` property the returned object itself has
(for the set-operation shape this is its left/right pair; for the
logical-node shape there is none, hence `undefined`). -/
def Res.jsValue : Res → B
  | .vi v _ => v
  | .obj b => b.valueProp

/-- Reading the `index` field of a result: absent (`undefined`) on every
shape other than the value/index pair. -/
def Res.jsIndex : Res → Option Nat
  | .vi _ i => i
  | .obj _ => none

/-- The `type` of an optionally present token, as the optional-chaining
reads of the source. -/
def optNTType (t : Option NToken) : Option NType := t.map NToken.type

/-- Modelled from the spec: the end-of-WHERE sentinel of the missing
reserved-words module — end of input, the next set-operation keyword, or
the next clause keyword. -/
def isEndOfWhere (t : Option NToken) : Bool :=
  match t with
  | none => true
  | some t => decide (t.type = .union ∨ t.type = .orderBy ∨ t.type = .limit)

/-- Modelled from the spec: the logical-operator test of the missing
operators module (AND/OR). -/
def isLogical (t : Option NType) : Bool :=
  decide (t = some NType.andL ∨ t = some NType.orL)

/-- Modelled from the spec: the comparator test of the missing
comparators module. -/
def isComparator (t : Option NType) : Bool :=
  decide (t = some NType.equal ∨ t = some NType.less ∨ t = some NType.greater)

/-- Modelled from the spec: the quote-token test of the missing
identifier module. -/
def isQuote (t : Option NToken) : Bool :=
  decide (optNTType t = some NType.quote)

/-- `isUnion` (source): the current token's type is the UNION reserved
word; an undefined index (possible after a where clause) reads an
undefined token and yields false. -/
def isUnion (tokens : List NToken) (index : Option Nat) : Bool :=
  match index with
  | none => false
  | some i => decide (optNTType tokens[i]? = some NType.union)

/-- `getUnionType` (source): UNION followed by ALL is a union-all,
UNION alone is a union, anything else throws. -/
def getUnionType (tokens : List NToken) (index : Option Nat) :
    Except BErr NType :=
  let next := match index with
    | none => none
    | some i => tokens[i + 1]?
  if isUnion tokens index ∧ optNTType next = some NType.all then
    pure .unionAll
  else if isUnion tokens index then
    pure .union
  else
    throw .unionNotFound

/-- `getIndexNextSelect` (source): position of the select after the
union keyword(s); the switch has no default, so any other union type
would produce `undefined`. -/
def getIndexNextSelect (tokens : List NToken) (index : Option Nat) :
    Except BErr (Option Nat) := do
  let unionType ← getUnionType tokens index
  pure (match unionType, index with
    | .union, some i => some (i + 1)
    | .unionAll, some i => some (i + 2)
    | _, _ => none)

/-- `isWhere` (source): the current token opens a WHERE clause. -/
def isWhere (tokens : List NToken) (index : Nat) : Bool :=
  decide (optNTType tokens[index]? = some NType.whereKw)

/-- The concat-operator test on a column part, comparing its type with
the concat operator key as the source does. -/
def isConcatPart (p : B) : Bool := decide (p.typeProp = some NType.concat)

/-- `splitTokensByConcatOperator` (source): the while loop repeatedly
cuts the array at the first part whose type is the concat key, pushes
the prefix, drops the operator and restarts on the suffix; the embedding
performs the same first-occurrence cuts by one structural pass. -/
def splitTokensByConcatOperator : List B → List (List B)
  | [] => [[]]
  | part :: rest =>
    if isConcatPart part then
      [] :: splitTokensByConcatOperator rest
    else
      match splitTokensByConcatOperator rest with
      | g :: gs => (part :: g) :: gs
      | [] => [[part]]

/-- JS `Array.prototype.slice`: negative arguments count from the end of
the array. -/
def jsSliceArr (l : List B) (a b : Int) : List B :=
  let len := (l.length : Int)
  let lo := if a < 0 then max 0 (len + a) else min a len
  let hi := if b < 0 then max 0 (len + b) else min b len
  (l.take hi.toNat).drop lo.toNat

mutual

/-- `processColumn` (source): concat splitting first (each operand group
processed recursively with no alias), then the token-level function-call
pattern, the parenthesized pattern, the single-part copy, and otherwise
the thrown unsupported-column error.  In the source both slice ends are
`parts.indexOf` applied to a string constant (function-call branch) or a
fresh object literal (parenthesis branch); strict equality of a token
object with either is always false, so both calls return -1 and both
slices stop one element before the end of the parts array. -/
def processColumn (fuel : Nat) (parts : List B) (aliasV : B) :
    Except BErr B :=
  match fuel with
  | 0 => .error .fuelOut
  | fuel + 1 =>
    if parts.any isConcatPart then
      match mapProcessColumn fuel (splitTokensByConcatOperator parts) with
      | .error e => .error e
      | .ok subColumns =>
        .ok (.tva (some .concatenation) (.arr subColumns) aliasV)
    else if 3 ≤ parts.length ∧
        (parts[0]?).map B.typeProp = some (some NType.identifier) ∧
        (parts[1]?).map B.typeProp = some (some NType.leftParen) then
      let args := jsSliceArr parts 2 (-1)
      let name := match parts[0]? with
        | some p => p.valueProp
        | none => B.undefined
      .ok (.tva (some .functionCall) (.nameArgs name (.arr args)) aliasV)
    else if (parts[0]?).map B.typeProp = some (some NType.leftParen) then
      let subTokens := jsSliceArr parts 1 (-1)
      .ok (.tva (some .parenthesis) ((subTokens[0]?).getD B.undefined) aliasV)
    else
      match parts with
      | [p] => .ok (.tva p.typeProp p.valueProp aliasV)
      | _ => .error .unsupportedColumn

/-- The `subParts.map(parts => processColumn (parts))` of the concat
branch: each group is processed with an absent alias, and a thrown error
propagates. -/
def mapProcessColumn (fuel : Nat) (gs : List (List B)) :
    Except BErr (List B) :=
  match fuel with
  | 0 => .error .fuelOut
  | fuel + 1 =>
    match gs with
    | [] => .ok []
    | g :: rest =>
      match processColumn fuel g B.undefined with
      | .error e => .error e
      | .ok c =>
        match mapProcessColumn fuel rest with
        | .error e => .error e
        | .ok cs => .ok (c :: cs)

end


theorem splitTokens_length (l : List B) :
    (splitTokensByConcatOperator l).length = l.countP isConcatPart + 1 := by
  induction l with
  | nil => rfl
  | cons part rest ih =>
    rw [List.countP_cons]
    by_cases hp : isConcatPart part = true
    · simp [splitTokensByConcatOperator, hp, ih]
    · cases hs : splitTokensByConcatOperator rest with
      | nil => rw [hs] at ih; simp only [List.length_nil] at ih; omega
      | cons g gs =>
        rw [hs] at ih
        simp only [List.length_cons] at ih
        simp [splitTokensByConcatOperator, hp, hs]
        omega

theorem splitTokens_no_concat (l : List B) :
    ∀ g ∈ splitTokensByConcatOperator l, g.countP isConcatPart = 0 := by
  induction l with
  | nil =>
    intro g hg
    simp only [splitTokensByConcatOperator, List.mem_singleton] at hg
    simp [hg]
  | cons part rest ih =>
    intro g hg
    by_cases hp : isConcatPart part = true
    · simp only [splitTokensByConcatOperator, if_pos hp, List.mem_cons] at hg
      rcases hg with h | h
      · simp [h]
      · exact ih g h
    · cases hs : splitTokensByConcatOperator rest with
      | nil =>
        have := splitTokens_length rest
        rw [hs] at this
        simp at this
      | cons g0 gs =>
        simp only [splitTokensByConcatOperator, if_neg hp, hs, List.mem_cons] at hg
        rcases hg with h | h
        · subst h
          rw [List.countP_cons]
          have h0 : g0.countP isConcatPart = 0 :=
            ih g0 (by rw [hs]; exact List.mem_cons_self _ _)
          simp [h0, hp]
        · exact ih g (by rw [hs]; exact List.mem_cons_of_mem _ h)

theorem mapProcessColumn_length (gs : List (List B)) :
    ∀ (fuel : Nat) (ys : List B),
      mapProcessColumn fuel gs = .ok ys → ys.length = gs.length := by
  induction gs with
  | nil =>
    intro fuel ys h
    match fuel with
    | 0 => simp [mapProcessColumn] at h
    | fuel + 1 =>
      simp only [mapProcessColumn, Except.ok.injEq] at h
      simp [← h]
  | cons g rest ih =>
    intro fuel ys h
    match fuel with
    | 0 => simp [mapProcessColumn] at h
    | fuel + 1 =>
      simp only [mapProcessColumn] at h
      cases hc : processColumn fuel g B.undefined with
      | error e => rw [hc] at h; simp at h
      | ok c =>
        rw [hc] at h
        cases hm : mapProcessColumn fuel rest with
        | error e => rw [hm] at h; simp at h
        | ok cs =>
          rw [hm] at h
          simp only [Except.ok.injEq] at h
          rw [← h]
          simp [ih fuel cs hm]

/-- Claim C4 (amended): for every column whose accumulated parts contain
k ≥ 1 concat operators, the newer column resolver partitions the parts
at each operator occurrence (operator tokens discarded) into exactly
k+1 groups, each group free of concat operators and independently
resolved, and whenever the resolution succeeds the column's expression
is a concatenation over exactly those k+1 ≥ 2 groups (first conjunct,
with the success case exhibited concretely on the identifier-concat-
identifier parts list in the second conjunct).  The exported parse of
the older pipeline discards the operator tokens without grouping, so a
concatenation it produces can have fewer than two parts when an
operator lacks an adjacent operand (see the counterexample) — but on
SELECT a || b FROM t it still yields a concatenation of exactly two
identifier parts (third conjunct). -/
theorem c4_amended_thm (parts : List B) (al : B) (fuel : Nat)
    (hk : 1 ≤ parts.countP isConcatPart) :
    ((splitTokensByConcatOperator parts).length
        = parts.countP isConcatPart + 1 ∧
     (∀ g ∈ splitTokensByConcatOperator parts, g.countP isConcatPart = 0) ∧
     (∀ res, processColumn fuel parts al = .ok res →
       ∃ cols, res = B.tva (some NType.concatenation) (B.arr cols) al ∧
         cols.length = parts.countP isConcatPart + 1)) ∧
    processColumn 10
        [B.tagged .identifier (B.str "a".toList),
         B.tagged .concat (B.str "||".toList),
         B.tagged .identifier (B.str "b".toList)] B.undefined
      = .ok (B.tva (some .concatenation)
          (B.arr [B.tva (some .identifier) (B.str "a".toList) B.undefined,
                  B.tva (some .identifier) (B.str "b".toList) B.undefined])
          B.undefined) ∧
    parse 100 ["SELECT".toList, "a".toList, "||".toList, "b".toList,
        "FROM".toList, "t".toList]
      = .ok (.select
          [.column (.concatCV [.tv ATag.object_value "a".toList,
                               .tv ATag.object_value "b".toList]) .jsNull]
          (.tv ATag.from_object "t".toList)) := by
  refine ⟨⟨splitTokens_length parts, splitTokens_no_concat parts, ?_⟩, rfl, rfl⟩
  intro res h
  match fuel with
  | 0 => simp [processColumn] at h
  | fuel + 1 =>
    have hany : parts.any isConcatPart = true := by
      rw [List.any_eq_true]
      have hx := List.countP_pos_iff.mp
        (show 0 < parts.countP isConcatPart by omega)
      simpa using hx
    simp only [processColumn, if_pos hany] at h
    cases hm : mapProcessColumn fuel (splitTokensByConcatOperator parts) with
    | error e => rw [hm] at h; simp at h
    | ok subColumns =>
      rw [hm] at h
      simp only [Except.ok.injEq] at h
      refine ⟨subColumns, h.symm, ?_⟩
      rw [mapProcessColumn_length _ fuel subColumns hm]
      exact splitTokens_length parts

/-- Witness for the amended C4 at the parts list of one identifier, one
concat operator and one identifier. -/
theorem c4_amended_witness :
    (1 ≤ [B.tagged .identifier (B.str "a".toList),
          B.tagged .concat (B.str "||".toList),
          B.tagged .identifier (B.str "b".toList)].countP isConcatPart) ∧
    (((splitTokensByConcatOperator
        [B.tagged .identifier (B.str "a".toList),
         B.tagged .concat (B.str "||".toList),
         B.tagged .identifier (B.str "b".toList)]).length
      = [B.tagged .identifier (B.str "a".toList),
         B.tagged .concat (B.str "||".toList),
         B.tagged .identifier (B.str "b".toList)].countP isConcatPart + 1 ∧
     (∀ g ∈ splitTokensByConcatOperator
        [B.tagged .identifier (B.str "a".toList),
         B.tagged .concat (B.str "||".toList),
         B.tagged .identifier (B.str "b".toList)],
        g.countP isConcatPart = 0) ∧
     (∀ res, processColumn 10
        [B.tagged .identifier (B.str "a".toList),
         B.tagged .concat (B.str "||".toList),
         B.tagged .identifier (B.str "b".toList)] B.undefined = .ok res →
      ∃ cols, res = B.tva (some NType.concatenation) (B.arr cols) B.undefined ∧
        cols.length = [B.tagged .identifier (B.str "a".toList),
          B.tagged .concat (B.str "||".toList),
          B.tagged .identifier (B.str "b".toList)].countP isConcatPart + 1)) ∧
    processColumn 10
        [B.tagged .identifier (B.str "a".toList),
         B.tagged .concat (B.str "||".toList),
         B.tagged .identifier (B.str "b".toList)] B.undefined
      = .ok (B.tva (some .concatenation)
          (B.arr [B.tva (some .identifier) (B.str "a".toList) B.undefined,
                  B.tva (some .identifier) (B.str "b".toList) B.undefined])
          B.undefined) ∧
    parse 100 ["SELECT".toList, "a".toList, "||".toList, "b".toList,
        "FROM".toList, "t".toList]
      = .ok (.select
          [.column (.concatCV [.tv ATag.object_value "a".toList,
                               .tv ATag.object_value "b".toList]) .jsNull]
          (.tv ATag.from_object "t".toList))) :=
  ⟨by decide,
    c4_amended_thm
      [B.tagged .identifier (B.str "a".toList),
       B.tagged .concat (B.str "||".toList),
       B.tagged .identifier (B.str "b".toList)] B.undefined 10 (by decide)⟩

/-- The two alias shapes `getObjectAlias` can report. -/
inductive OAKind where
  | asAlias
  | shortAlias
deriving DecidableEq, Repr

/-- `getObjectAlias` (source): an AS keyword at the position yields an
AS alias whose value is the following token (or `undefined` when the
input ends there); an identifier whose position minus two holds the FROM
keyword yields a short alias whose value is the identifier text; in the
source a negative index reads `undefined`, so positions 0 and 1 cannot
carry a short alias. -/
def getObjectAlias (tokens : List NToken) (index : Nat) :
    Option (OAKind × B) :=
  if optNTType tokens[index]? = some NType.asKw then
    some (.asAlias, match tokens[index + 1]? with
      | none => B.undefined
      | some t => tokenB t)
  else if optNTType tokens[index]? = some NType.identifier ∧ 2 ≤ index ∧
      optNTType tokens[index - 2]? = some NType.fromKw then
    match tokens[index]? with
    | some t => some (.shortAlias, B.str t.value)
    | none => none
  else
    none

mutual

/-- Modelled from the spec: the `walk` entry point of the newer parser
module is not among the sources.  Per the spec it dispatches on the
current token's type: a select keyword goes to the select-statement
parser, and a bare literal/identifier/asterisk leaf comes back as the
token-shaped node paired with its own position; walking an absent token
fails with the TypeError of reading its type. -/
def walkDispatch (fuel : Nat) (tokens : List NToken) (index : Nat) :
    Except BErr Res :=
  match fuel with
  | 0 => throw .fuelOut
  | fuel + 1 =>
    match tokens[index]? with
    | none => throw .typeError
    | some t =>
      if t.type = .select then selectCommand fuel tokens index
      else pure (.vi (tokenB t) (some index))
termination_by structural fuel

/-- `walkWhereParts` (source): scan until the end-of-WHERE sentinel,
carrying the comparison built so far.  On a logical operator the
function returns the logical node itself — an object with type, left and
right but no value/index fields (`Res.obj`), whose `value` read inside
the recursion and inside `walkWhere` is therefore `undefined`.  On a
comparator one position ahead, a comparison node is built from the
current token, the comparator's type and the walked right-hand operand,
which sits one extra position away when a quote token intervenes. -/
def walkWhereParts (fuel : Nat) (tokens : List NToken) (index : Nat)
    (comparation : B) : Except BErr Res :=
  match fuel with
  | 0 => throw .fuelOut
  | fuel + 1 =>
    if isEndOfWhere tokens[index]? then
      pure (.vi comparation (some index))
    else if isLogical (optNTType tokens[index]?) then
      match tokens[index]? with
      | some t => do
          let r ← walkWhereParts fuel tokens (index + 1) B.undefined
          pure (.obj (B.triple t.type comparation r.jsValue))
      | none => throw .typeError
    else if isComparator (optNTType tokens[index + 1]?) then
      match tokens[index]?, tokens[index + 1]? with
      | some cur, some cmp => do
          let rightIndex := if isQuote tokens[index + 2]? then 3 else 2
          let res ← walkDispatch fuel tokens (index + rightIndex)
          walkWhereParts fuel tokens
            (index + (if rightIndex = 3 then 4 else 3))
            (B.triple cmp.type (tokenB cur) res.jsValue)
      | _, _ => throw .typeError
    else
      walkWhereParts fuel tokens (index + 1) comparation
termination_by structural fuel

/-- `walkColumns` (source): the while loop scanning forward to the FROM
keyword.  `columnTmp` is `none` before any part is collected; building a
column from it then, or setting its alias, is the TypeError of the
source's use of `undefined`.  A comma builds the pending column; an AS
keyword walks the next position and stores the value property of the
walked node as the alias; a quote token is skipped; any other token is
walked and appended to the pending parts, resuming one past the index
field of the walk result (an undefined index — possible when the walk
returned a set-operation shape — is modelled as the TypeError the
subsequent array read would produce). -/
def walkColumns (fuel : Nat) (tokens : List NToken) (index : Nat)
    (columns : List B) (columnTmp : Option (List B × B)) :
    Except BErr (List B × Nat) :=
  match fuel with
  | 0 => throw .fuelOut
  | fuel + 1 =>
    if optNTType tokens[index]? = some NType.fromKw then
      match columnTmp with
      | none => throw .typeError
      | some (parts, al) =>
        match processColumn fuel parts al with
        | .error e => throw e
        | .ok col => pure (columns ++ [col], index)
    else if optNTType tokens[index]? = some NType.comma then
      match columnTmp with
      | none => throw .typeError
      | some (parts, al) =>
        match processColumn fuel parts al with
        | .error e => throw e
        | .ok col => walkColumns fuel tokens (index + 1) (columns ++ [col]) none
    else if optNTType tokens[index]? = some NType.asKw then do
      let r ← walkDispatch fuel tokens (index + 1)
      match columnTmp with
      | none => throw .typeError
      | some (parts, _) =>
        walkColumns fuel tokens (index + 1 + 1) columns
          (some (parts, r.jsValue.valueProp))
    else if isQuote tokens[index]? then
      walkColumns fuel tokens (index + 1) columns columnTmp
    else do
      let r ← walkDispatch fuel tokens index
      match r.jsIndex with
      | none => throw .typeError
      | some asd =>
        let columnTmp' := match columnTmp with
          | none => some ([r.jsValue], B.undefined)
          | some (ps, al) => some (ps ++ [r.jsValue], al)
        walkColumns fuel tokens (asd + 1) columns columnTmp'
termination_by structural fuel

/-- The select-statement parser (source default export): columns up to
FROM, the from object with its optional alias, the optional where
clause, then the union wrapping.  The normal return is a value/index
pair whose index is one before the current position; the union branch
instead returns the set-operation object itself — type and value but no
value/index wrapper (`Res.obj`).  After a where clause the current index
becomes the index field of the walkWhereParts result, which is
`undefined` whenever that call returned its logical-node shape. -/
def selectCommand (fuel : Nat) (tokens : List NToken) (index : Nat) :
    Except BErr Res :=
  match fuel with
  | 0 => throw .fuelOut
  | fuel + 1 => do
    let (columns, i) ← walkColumns fuel tokens (index + 1) [] none
    let fIdx := i + 1
    let r ← walkDispatch fuel tokens fIdx
    let fromValue ← (match r.jsValue with
      | B.undefined => throw BErr.typeError
      | v => pure v.valueProp)
    let aIdx := fIdx + 1
    let (aliasB, afterFrom) :=
      match getObjectAlias tokens aIdx with
      | some (.asAlias, v) => (v, aIdx + 2)
      | some (.shortAlias, v) => (v, aIdx + 1)
      | none => (B.undefined, aIdx)
    let fromNode := B.tva (some .identifier) fromValue aliasB
    let (whereV, idxAfter) ←
      (if isWhere tokens afterFrom then do
        let wr ← walkWhereParts fuel tokens (afterFrom + 1) B.undefined
        pure (B.tagged .whereKw wr.jsValue, wr.jsIndex)
      else
        pure (B.undefined, some afterFrom))
    let selectValue := B.tagged .select (B.selVal (B.arr columns) fromNode whereV)
    if isUnion tokens idxAfter then do
      let k ← getUnionType tokens idxAfter
      let ni ← getIndexNextSelect tokens idxAfter
      match ni with
      | none => throw BErr.typeError
      | some n => do
          let nr ← walkDispatch fuel tokens n
          pure (.obj (B.tagged k (B.pair selectValue nr.jsValue)))
    else
      pure (.vi selectValue (idxAfter.map fun j => j - 1))
termination_by structural fuel

end


/-- Shorthand for a classified token of the newer pipeline. -/
def nt (t : NType) (v : String) : NToken := ⟨t, v.toList⟩

/-- The classified token sequence of
SELECT * FROM t WHERE x = 1 AND y = 2. -/
def demoWhereTokens : List NToken :=
  [nt .select "SELECT", nt .asterisk "*", nt .fromKw "FROM", nt .identifier "t",
   nt .whereKw "WHERE", nt .identifier "x", nt .equal "=", nt .identifier "1",
   nt .andL "AND", nt .identifier "y", nt .equal "=", nt .identifier "2"]

/-- The classified token sequence of the predicate
x = 1 AND y = 2 AND z = 3 (two logical operators). -/
def demoWhere2Tokens : List NToken :=
  [nt .identifier "x", nt .equal "=", nt .identifier "1",
   nt .andL "AND", nt .identifier "y", nt .equal "=", nt .identifier "2",
   nt .andL "AND", nt .identifier "z", nt .equal "=", nt .identifier "3"]

/-- The classified token sequence of
SELECT * FROM a UNION ALL SELECT * FROM b UNION ALL SELECT * FROM c. -/
def demoUnionTokens : List NToken :=
  [nt .select "SELECT", nt .asterisk "*", nt .fromKw "FROM", nt .identifier "a",
   nt .union "UNION", nt .all "ALL",
   nt .select "SELECT", nt .asterisk "*", nt .fromKw "FROM", nt .identifier "b",
   nt .union "UNION", nt .all "ALL",
   nt .select "SELECT", nt .asterisk "*", nt .fromKw "FROM", nt .identifier "c"]

/-- Claim C1: the WHERE resolution loses its logical nodes.  At a
logical operator the source does build an object carrying the operator,
the predicate so far as left and the recursively parsed remainder as
right (first conjunct) — but in a shape without the value/index wrapper
of the other return, so `walkWhere` destructures its value field as
`undefined` and the where node of the select carries `undefined` instead
of the Logical tree (second conjunct); and with two or more logical
operators the recursive read of that value field inside `walkWhereParts`
is likewise `undefined`, losing the whole right-hand subtree (third
conjunct). -/
theorem c1_where_logical_lost :
    walkWhereParts 100 demoWhereTokens 5 B.undefined
      = .ok (.obj (B.triple .andL
          (B.triple .equal (B.tagged .identifier (B.str "x".toList))
            (B.tagged .identifier (B.str "1".toList)))
          (B.triple .equal (B.tagged .identifier (B.str "y".toList))
            (B.tagged .identifier (B.str "2".toList))))) ∧
    selectCommand 100 demoWhereTokens 0
      = .ok (.vi (B.tagged .select (B.selVal
          (B.arr [B.tva (some .asterisk) (B.str "*".toList) B.undefined])
          (B.tva (some .identifier) (B.str "t".toList) B.undefined)
          (B.tagged .whereKw B.undefined))) none) ∧
    walkWhereParts 100 demoWhere2Tokens 0 B.undefined
      = .ok (.obj (B.triple .andL
          (B.triple .equal (B.tagged .identifier (B.str "x".toList))
            (B.tagged .identifier (B.str "1".toList)))
          B.undefined)) :=
  ⟨rfl, rfl, rfl⟩

/-- A parsed bare select of the asterisk column from the given source
table, as the newer parser builds it. -/
def demoSelectNode (src : String) : B :=
  B.tagged .select (B.selVal
    (B.arr [B.tva (some .asterisk) (B.str "*".toList) B.undefined])
    (B.tva (some .identifier) (B.str src.toList) B.undefined)
    B.undefined)

/-- Claim C5: for two selects joined by UNION ALL the parser peeks one
token past UNION and wraps the pair under the union-all kind (first
conjunct); but for three selects the inner set operation loses its kind
tag: the walk of the second select returns the set-operation shape, the
caller destructures its value field, and only the bare left/right pair
survives in the right-hand position (second conjunct), refuting the
claim that every node of the chain carries the union-all kind. -/
theorem c5_union_chain_untagged :
    selectCommand 100 (demoUnionTokens.take 10) 0
      = .ok (.obj (B.tagged .unionAll
          (B.pair (demoSelectNode "a") (demoSelectNode "b")))) ∧
    selectCommand 100 demoUnionTokens 0
      = .ok (.obj (B.tagged .unionAll
          (B.pair (demoSelectNode "a")
            (B.pair (demoSelectNode "b") (demoSelectNode "c"))))) :=
  ⟨rfl, rfl⟩


end SqlC
